import Mathlib

set_option maxRecDepth 4000

/-!
Verification development for the `process_afm_data` forestry pipeline.

The pipeline converts forestry inventory sources into simulation inputs:
per-stand classifiers (`src/02_classifiers.py`), merchantable-volume yield
curves (`src/03_yield_curves.py`), disturbance events with thinning removal
percentages (`src/05_disturbances.py`), classifier transition rules
(`src/06_transitions.py`), and scaled disturbance matrices
(`aidb_disturbance_manager.py`).

Numbers that the Python code manipulates as floats are modelled as exact
rationals (`ℚ`); `round(x, n)` is modelled as exact half-to-even rounding on
rationals; pandas `NaN` cells are modelled as `Option` values.
-/

/-! ## Rounding helpers

Python's built-in `round` rounds half to even (banker's rounding); `round(x, 2)`
rounds to two decimal places.  We model both exactly on `ℚ`.
-/

/-- Half-to-even rounding of a rational to an integer, modelling Python `round(x)`. -/
def pyRound (q : ℚ) : ℤ :=
  let f := q.floor
  let frac := q - (f : ℚ)
  if frac < 1/2 then f
  else if 1/2 < frac then f + 1
  else if f % 2 = 0 then f else f + 1

/-- Rounding to two decimal places, modelling Python `round(x, 2)`. -/
def round2 (q : ℚ) : ℚ := (pyRound (q * 100) : ℚ) / 100

/-! ## Decimal rendering of integers

Python renders the treatment ages with `f"...{age}..."`, i.e. by their decimal
digits.  `natChars` is that decimal rendering (structural recursion over a fuel
argument so that the kernel can evaluate it); `charsToNat` is the inverse used
to model regex digit-group capture.
-/

/-- Digit characters of `n` (most significant first), assuming `n ≤ fuel`; for
`n = 0` it returns `[]` (handled by `natChars`). -/
def natCharsGo : ℕ → ℕ → List Char
  | 0, _ => []
  | fuel + 1, n =>
    if n = 0 then [] else natCharsGo fuel (n / 10) ++ [Nat.digitChar (n % 10)]

/-- Decimal digit characters of a natural number, as Python `str(n)` produces. -/
def natChars (n : ℕ) : List Char := if n = 0 then ['0'] else natCharsGo n n

/-- Python `str(n)` for a natural number. -/
def natStr (n : ℕ) : String := String.mk (natChars n)

/-- Numeric value of a digit character. -/
def digitVal (c : Char) : ℕ := c.toNat - 48

/-- Accumulating decimal read-back of a digit string. -/
def charsToNatAux : ℕ → List Char → ℕ
  | acc, [] => acc
  | acc, c :: cs => charsToNatAux (acc * 10 + digitVal c) cs

/-- Decimal value of a digit string, as `int(s)` on a digit group. -/
def charsToNat (l : List Char) : ℕ := charsToNatAux 0 l

theorem charsToNatAux_nil (acc : ℕ) : charsToNatAux acc [] = acc := rfl

theorem charsToNatAux_cons (acc : ℕ) (c : Char) (cs : List Char) :
    charsToNatAux acc (c :: cs) = charsToNatAux (acc * 10 + digitVal c) cs := rfl

theorem natCharsGo_zero (fuel : ℕ) : natCharsGo fuel 0 = [] := by
  cases fuel <;> simp [natCharsGo]

theorem charsToNatAux_append (acc : ℕ) (l1 l2 : List Char) :
    charsToNatAux acc (l1 ++ l2) = charsToNatAux (charsToNatAux acc l1) l2 := by
  induction l1 generalizing acc with
  | nil => rfl
  | cons c cs ih => exact ih (acc * 10 + digitVal c)

theorem digitVal_digitChar (d : ℕ) (h : d < 10) : digitVal (Nat.digitChar d) = d := by
  interval_cases d <;> decide

theorem isDigit_digitChar (d : ℕ) (h : d < 10) : (Nat.digitChar d).isDigit = true := by
  interval_cases d <;> decide

theorem natCharsGo_digits (fuel : ℕ) :
    ∀ n, ∀ c ∈ natCharsGo fuel n, c.isDigit = true := by
  induction fuel with
  | zero => intro n c hc; simp [natCharsGo] at hc
  | succ f ih =>
    intro n c hc
    by_cases h0 : n = 0
    · simp [natCharsGo, h0] at hc
    · simp only [natCharsGo, if_neg h0, List.mem_append, List.mem_singleton] at hc
      rcases hc with hc | hc
      · exact ih _ c hc
      · subst hc; exact isDigit_digitChar (n % 10) (Nat.mod_lt _ (by norm_num))

theorem natCharsGo_ne_nil (fuel n : ℕ) (h1 : 0 < n) (h2 : n ≤ fuel) :
    natCharsGo fuel n ≠ [] := by
  cases fuel with
  | zero => omega
  | succ f =>
    simp only [natCharsGo, if_neg h1.ne']
    exact fun h => by simpa using congrArg List.length h

theorem charsToNatAux_natCharsGo (fuel : ℕ) :
    ∀ n acc, 0 < n → n ≤ fuel →
      charsToNatAux acc (natCharsGo fuel n) =
        acc * 10 ^ (natCharsGo fuel n).length + n := by
  induction fuel with
  | zero => intro n acc h1 h2; omega
  | succ f ih =>
    intro n acc h1 h2
    have hn0 : n ≠ 0 := h1.ne'
    simp only [natCharsGo, if_neg hn0]
    by_cases hsmall : n < 10
    · have hdiv : n / 10 = 0 := Nat.div_eq_of_lt hsmall
      rw [hdiv, natCharsGo_zero]
      rw [List.nil_append, charsToNatAux_cons, charsToNatAux_nil,
        digitVal_digitChar (n % 10) (Nat.mod_lt _ (by norm_num)),
        Nat.mod_eq_of_lt hsmall]
      simp [pow_one]
    · have h10 : 10 ≤ n := le_of_not_lt hsmall
      have hq : 0 < n / 10 := Nat.div_pos h10 (by norm_num)
      have hle : n / 10 ≤ f := by
        have := Nat.div_lt_self h1 (show 1 < 10 by norm_num)
        omega
      rw [charsToNatAux_append, ih (n / 10) acc hq hle, charsToNatAux_cons, charsToNatAux_nil,
        digitVal_digitChar (n % 10) (Nat.mod_lt _ (by norm_num))]
      simp only [List.length_append, List.length_singleton]
      have hmod : 10 * (n / 10) + n % 10 = n := Nat.div_add_mod n 10
      calc (acc * 10 ^ (natCharsGo f (n / 10)).length + n / 10) * 10 + n % 10
          = acc * (10 ^ (natCharsGo f (n / 10)).length * 10) + (10 * (n / 10) + n % 10) := by
            ring
        _ = acc * 10 ^ ((natCharsGo f (n / 10)).length + 1) + n := by
            rw [pow_succ, hmod]

theorem charsToNat_natChars (n : ℕ) : charsToNat (natChars n) = n := by
  by_cases h : n = 0
  · subst h; decide
  · simp only [natChars, if_neg h, charsToNat]
    rw [charsToNatAux_natCharsGo n n 0 (Nat.pos_of_ne_zero h) le_rfl]
    simp

theorem natChars_digits (n : ℕ) : ∀ c ∈ natChars n, c.isDigit = true := by
  by_cases h : n = 0
  · subst h; decide
  · simp only [natChars, if_neg h]
    exact natCharsGo_digits n n

/-! ## Trajectory Key Codec

The encoder is the f-string
`f"T1-{thin1}-T2-{thin2}-F1-{fert1}-F2-{fert2}"` used in
`src/02_classifiers.py` (`assign_classifiers`) and in
`src/05_disturbances.py` / `src/06_transitions.py`.  The decoder is
`_parse_thin_ages` in `src/03_yield_curves.py`:
`re.search(r"T1-(\d+)-T2-(\d+)", trajectory)`, returning `(0, 0)` when the
pattern does not match.
-/

/-- The canonical trajectory-key string `T1-<a>-T2-<b>-F1-<c>-F2-<d>`. -/
def trajString (t1 t2 f1 f2 : ℕ) : String :=
  "T1-" ++ natStr t1 ++ "-T2-" ++ natStr t2 ++ "-F1-" ++ natStr f1 ++ "-F2-" ++ natStr f2

/-- One attempt of the regex `T1-(\d+)-T2-(\d+)` anchored at the head of the
character list; `(\d+)` is modelled by a greedy `takeWhile Char.isDigit`
(equivalent here, since the character after the group in the pattern is not a
digit). -/
def parseThinAt : List Char → Option (ℕ × ℕ)
  | 'T' :: '1' :: '-' :: rest =>
    let ds1 := rest.takeWhile Char.isDigit
    if ds1.isEmpty then none
    else
      match rest.dropWhile Char.isDigit with
      | '-' :: 'T' :: '2' :: '-' :: rest2 =>
        let ds2 := rest2.takeWhile Char.isDigit
        if ds2.isEmpty then none else some (charsToNat ds1, charsToNat ds2)
      | _ => none
  | _ => none

/-- `re.search`: try the pattern at each position, first match wins. -/
def searchThinTags : List Char → Option (ℕ × ℕ)
  | [] => none
  | c :: rest =>
    match parseThinAt (c :: rest) with
    | some r => some r
    | none => searchThinTags rest

/-- `_parse_thin_ages` from `src/03_yield_curves.py`: parse the `T1`/`T2` ages
out of a trajectory string, `(0, 0)` when the pattern does not match. -/
def parse_thin_ages (s : String) : ℕ × ℕ := (searchThinTags s.data).getD (0, 0)

theorem takeWhile_append_stop (p : Char → Bool) (l1 l2 : List Char) (c : Char)
    (h1 : ∀ x ∈ l1, p x = true) (hc : p c = false) :
    (l1 ++ c :: l2).takeWhile p = l1 ∧ (l1 ++ c :: l2).dropWhile p = c :: l2 := by
  induction l1 with
  | nil => simp [List.takeWhile_cons, List.dropWhile_cons, hc]
  | cons x xs ih =>
    have hx : p x = true := h1 x (List.mem_cons_self x xs)
    have hxs : ∀ y ∈ xs, p y = true := fun y hy => h1 y (List.mem_cons_of_mem x hy)
    obtain ⟨ht, hd⟩ := ih hxs
    simp [List.takeWhile_cons, List.dropWhile_cons, hx, ht, hd]

theorem trajString_data (t1 t2 f1 f2 : ℕ) :
    (trajString t1 t2 f1 f2).data =
      'T' :: '1' :: '-' ::
        (natChars t1 ++ ('-' :: 'T' :: '2' :: '-' ::
          (natChars t2 ++ ('-' :: 'F' :: '1' :: '-' ::
            (natChars f1 ++ ('-' :: 'F' :: '2' :: '-' :: natChars f2)))))) := by
  show (String.mk _).data = _
  simp [trajString, natStr, String.data_append]

/-- Claim C9: encoding four non-negative integer treatment ages as the canonical
trajectory key, decoding it with `_parse_thin_ages`, and re-encoding yields the
original string; the decoded ages are the encoded (non-negative, `ℕ`-valued)
thin ages. -/
theorem trajectory_key_roundtrip (t1 t2 f1 f2 : ℕ) :
    parse_thin_ages (trajString t1 t2 f1 f2) = (t1, t2) ∧
    trajString (parse_thin_ages (trajString t1 t2 f1 f2)).1
      (parse_thin_ages (trajString t1 t2 f1 f2)).2 f1 f2 = trajString t1 t2 f1 f2 := by
  have hmain : parse_thin_ages (trajString t1 t2 f1 f2) = (t1, t2) := by
    unfold parse_thin_ages
    rw [trajString_data]
    obtain ⟨ht1, hd1⟩ := takeWhile_append_stop Char.isDigit (natChars t1)
      ('T' :: '2' :: '-' :: (natChars t2 ++ ('-' :: 'F' :: '1' :: '-' ::
        (natChars f1 ++ ('-' :: 'F' :: '2' :: '-' :: natChars f2))))) '-'
      (natChars_digits t1) (by decide)
    obtain ⟨ht2, hd2⟩ := takeWhile_append_stop Char.isDigit (natChars t2)
      ('F' :: '1' :: '-' :: (natChars f1 ++ ('-' :: 'F' :: '2' :: '-' :: natChars f2))) '-'
      (natChars_digits t2) (by decide)
    have hne1 : (natChars t1).isEmpty = false := by
      cases hn : natChars t1 with
      | nil => exact absurd hn (by
          by_cases h : t1 = 0
          · subst h; decide
          · simp only [natChars, if_neg h]
            exact natCharsGo_ne_nil t1 t1 (Nat.pos_of_ne_zero h) le_rfl)
      | cons a l => rfl
    have hne2 : (natChars t2).isEmpty = false := by
      cases hn : natChars t2 with
      | nil => exact absurd hn (by
          by_cases h : t2 = 0
          · subst h; decide
          · simp only [natChars, if_neg h]
            exact natCharsGo_ne_nil t2 t2 (Nat.pos_of_ne_zero h) le_rfl)
      | cons a l => rfl
    simp only [searchThinTags, parseThinAt, ht1, hd1, ht2, hd2, hne1, hne2,
      Bool.false_eq_true, if_false, charsToNat_natChars]
    rfl
  exact ⟨hmain, by rw [hmain]⟩

/-! ## Site-index rounding

Two distinct rounders exist in the source.  `round_si` (in
`src/02_classifiers.py`) produces the classifier string class, with an `SI0`
sentinel for zero/missing site-index.  `_round_si` (duplicated in
`src/03_yield_curves.py` and `src/05_disturbances.py`) produces the integer
lookup key for the regen (Yields2) tables: zero/missing maps to 50, and the
rounded value is clamped into `[50, 100]`.  `SI_CLASS_INTERVAL = 5`.
A missing (pandas `NaN`) raw site-index is modelled as `none`.
-/

def SI_CLASS_INTERVAL : ℚ := 5

/-- `round_si` from `src/02_classifiers.py`: classifier SI class string. -/
def round_si_class (si : Option ℚ) : String :=
  match si with
  | none => "SI0"
  | some v =>
    if v = 0 then "SI0"
    else
      let rounded := pyRound (v / SI_CLASS_INTERVAL) * 5
      "SI" ++ (if rounded < 0 then "-" ++ natStr rounded.natAbs else natStr rounded.toNat)

/-- `_round_si` from `src/05_disturbances.py` / `src/03_yield_curves.py`:
integer SI key for the Yields2 regen tables. -/
def round_si (si : Option ℚ) : ℤ :=
  match si with
  | none => 50
  | some v =>
    if v = 0 then 50
    else max 50 (min 100 (pyRound (v / SI_CLASS_INTERVAL) * 5))

/-- Claim C10: the regen-lookup site-index rounder maps a zero or missing raw
site-index to 50 and clamps every rounded value into `[50, 100]`; the
classifier's rounder, by contrast, keeps the `SI0` sentinel for those stands. -/
theorem regen_si_rounding_clamped :
    round_si none = 50 ∧ round_si (some 0) = 50 ∧
    (∀ q : ℚ, 50 ≤ round_si (some q) ∧ round_si (some q) ≤ 100) ∧
    round_si_class none = "SI0" ∧ round_si_class (some 0) = "SI0" := by
  refine ⟨rfl, by norm_num [round_si], ?_, rfl, by norm_num [round_si_class]⟩
  intro q
  by_cases h : q = 0
  · subst h; norm_num [round_si]
  · simp only [round_si, if_neg h]
    constructor
    · exact le_max_left _ _
    · exact max_le (by norm_num) (min_le_left _ _)

/-! ## Thinning removal percentage (`calc_thinning_pct`, `src/05_disturbances.py`)

Yield tables are modelled as row lists; a row's `vols` list holds the values of
the age columns `"1" .. str(max_age)` (index 0 = age 1), with `none` for `NaN`
cells.  `_get_volume_at_age` returns `some 0` outside `[1, max_age]`, `none`
when no row matches (pandas empty selection), and the first matching row's cell
otherwise (`NaN ↦ 0`).
-/

def MAX_AGE_YIELDS1 : ℕ := 78

def MAX_AGE_YIELDS2 : ℕ := 50

structure YieldRow where
  stand_key : String
  mgmt_trajectory : String
  product : String
  vols : List (Option ℚ)
deriving DecidableEq

structure RegenRow where
  si_value : ℤ
  species_code : String
  mgmt_trajectory : String
  product : String
  vols : List (Option ℚ)
deriving DecidableEq

/-- `_get_volume_at_age` (stand-keyed Yields1/Yields3 lookup). -/
def getVolumeAtAge (rows : List YieldRow) (sk traj product : String) (age : ℕ)
    (maxAge : ℕ) : Option ℚ :=
  if age < 1 || maxAge < age then some 0
  else
    match rows.find? (fun r =>
        r.stand_key == sk && r.mgmt_trajectory == traj && r.product == product) with
    | none => none
    | some r => some ((r.vols.getD (age - 1) none).getD 0)

/-- `_get_regen_volume_at_age` (SI/species-keyed Yields2 lookup). -/
def getRegenVolumeAtAge (rows : List RegenRow) (si : ℤ) (sp traj product : String)
    (age : ℕ) : Option ℚ :=
  if age < 1 || MAX_AGE_YIELDS2 < age then some 0
  else
    match rows.find? (fun r =>
        r.si_value == si && r.species_code == sp &&
        r.mgmt_trajectory == traj && r.product == product) with
    | none => none
    | some r => some ((r.vols.getD (age - 1) none).getD 0)

/-- `_species_to_regen_code`'s mapping dict from `src/05_disturbances.py`. -/
def SPECIES_TO_REGEN : List (String × String) :=
  [("LB", "LB"), ("LL", "LL"), ("SL", "SL"),
   ("COLB", "LB"), ("COLL", "LL"), ("COSL", "SL"),
   ("CSLB", "LB"), ("CSLL", "LL"), ("CSSL", "SL"),
   ("PH", "LB"), ("HH", "LB"), ("SH", "LB")]

/-- `_species_to_regen_code`: `mapping.get(species, "LB")`. -/
def speciesToRegenCode (s : String) : String := (SPECIES_TO_REGEN.lookup s).getD "LB"

/-- One thinning event row of the disturbance-event table, with the schedule
columns `calc_thinning_pct` reads.  Per the source docstring, `thin1`/`thin2`
reflect the stand state *before* the action. -/
structure ThinEvent where
  stand_key : String
  dtype : String
  age : ℕ
  thin1 : ℕ
  fert1 : ℕ
  fert2 : ℕ
  rotation : ℕ
  si : Option ℚ
  species : String
deriving DecidableEq

/-- The per-event volume resolution of `calc_thinning_pct`: returns the raw
lookup results `(pre_p, rem_p, pre_h)` (pre-treatment softwood, removed
softwood, pre-treatment hardwood), each `none` when no curve row matched.
1st-rotation thins use Yields3 with Yields1 fallback; 2nd-rotation thins use
the Yields2 regen curves keyed by rounded SI and regen species code. -/
def resolveThinVolumes (evt : ThinEvent) (yields1 yields3 : List YieldRow)
    (yields2 : List RegenRow) : Option ℚ × Option ℚ × Option ℚ :=
  if evt.dtype = "1st_Thin" then
    let noThinTraj := trajString 0 0 evt.fert1 evt.fert2
    let thinnedTraj := trajString evt.age 0 evt.fert1 evt.fert2
    if evt.rotation = 2 then
      let siR := round_si evt.si
      let sp := speciesToRegenCode evt.species
      (getRegenVolumeAtAge yields2 siR sp noThinTraj "P_TOP4M3PA" evt.age,
       getRegenVolumeAtAge yields2 siR sp thinnedTraj "qP_TOP4M3PA" evt.age,
       getRegenVolumeAtAge yields2 siR sp noThinTraj "H_TOP4M3PA" evt.age)
    else
      ((getVolumeAtAge yields3 evt.stand_key noThinTraj "P_TOP4M3PA" evt.age MAX_AGE_YIELDS1).orElse
         (fun _ => getVolumeAtAge yields1 evt.stand_key noThinTraj "P_TOP4M3PA" evt.age MAX_AGE_YIELDS1),
       (getVolumeAtAge yields3 evt.stand_key thinnedTraj "qP_TOP4M3PA" evt.age MAX_AGE_YIELDS1).orElse
         (fun _ => getVolumeAtAge yields1 evt.stand_key thinnedTraj "qP_TOP4M3PA" evt.age MAX_AGE_YIELDS1),
       (getVolumeAtAge yields3 evt.stand_key noThinTraj "H_TOP4M3PA" evt.age MAX_AGE_YIELDS1).orElse
         (fun _ => getVolumeAtAge yields1 evt.stand_key noThinTraj "H_TOP4M3PA" evt.age MAX_AGE_YIELDS1))
  else if evt.dtype = "2nd_Thin" then
    let t1OnlyTraj := trajString evt.thin1 0 evt.fert1 evt.fert2
    let thinnedTraj := trajString evt.thin1 evt.age evt.fert1 evt.fert2
    if evt.rotation = 2 then
      let siR := round_si evt.si
      let sp := speciesToRegenCode evt.species
      (getRegenVolumeAtAge yields2 siR sp t1OnlyTraj "P_TOP4M3PA" evt.age,
       getRegenVolumeAtAge yields2 siR sp thinnedTraj "qP_TOP4M3PA" evt.age,
       getRegenVolumeAtAge yields2 siR sp t1OnlyTraj "H_TOP4M3PA" evt.age)
    else
      ((getVolumeAtAge yields3 evt.stand_key t1OnlyTraj "P_TOP4M3PA" evt.age MAX_AGE_YIELDS1).orElse
         (fun _ => getVolumeAtAge yields1 evt.stand_key t1OnlyTraj "P_TOP4M3PA" evt.age MAX_AGE_YIELDS1),
       (getVolumeAtAge yields3 evt.stand_key thinnedTraj "qP_TOP4M3PA" evt.age MAX_AGE_YIELDS1).orElse
         (fun _ => getVolumeAtAge yields1 evt.stand_key thinnedTraj "qP_TOP4M3PA" evt.age MAX_AGE_YIELDS1),
       (getVolumeAtAge yields3 evt.stand_key t1OnlyTraj "H_TOP4M3PA" evt.age MAX_AGE_YIELDS1).orElse
         (fun _ => getVolumeAtAge yields1 evt.stand_key t1OnlyTraj "H_TOP4M3PA" evt.age MAX_AGE_YIELDS1))
  else (none, none, none)

/-- The code's removed-hardwood volume: `rem_h = 0.0`, never looked up. -/
def rem_h : ℚ := 0

/-- The percentage computation at the end of the `calc_thinning_pct` loop body:
`None` lookups become `0.0`; if `total_pre > 0` the percentage is
`round(total_rem / total_pre * 100, 2)`, else the event gets `0.0` and a
zero-volume warning is printed (the `Bool` component records that warning). -/
def thinPctCore (v : Option ℚ × Option ℚ × Option ℚ) : ℚ × Bool :=
  let pre_p := v.1.getD 0
  let rem_p := v.2.1.getD 0
  let pre_h := v.2.2.getD 0
  let total_pre := pre_p + pre_h
  let total_rem := rem_p + rem_h
  if 0 < total_pre then (round2 (total_rem / total_pre * 100), false) else (0, true)

/-- The full `calc_thinning_pct` loop body for one thinning event: resolved
volumes fed into the percentage computation. -/
def calcThinningPctEvent (evt : ThinEvent) (yields1 yields3 : List YieldRow)
    (yields2 : List RegenRow) : ℚ × Bool :=
  thinPctCore (resolveThinVolumes evt yields1 yields3 yields2)

/-- Resolved pre-treatment softwood volume (`pre_p` after `None ↦ 0.0`). -/
def resolvedPreSoftwood (evt : ThinEvent) (yields1 yields3 : List YieldRow)
    (yields2 : List RegenRow) : ℚ :=
  (resolveThinVolumes evt yields1 yields3 yields2).1.getD 0

/-- Resolved removed softwood volume (`rem_p` after `None ↦ 0.0`). -/
def resolvedRemovedSoftwood (evt : ThinEvent) (yields1 yields3 : List YieldRow)
    (yields2 : List RegenRow) : ℚ :=
  (resolveThinVolumes evt yields1 yields3 yields2).2.1.getD 0

/-- Resolved pre-treatment hardwood volume (`pre_h` after `None ↦ 0.0`). -/
def resolvedPreHardwood (evt : ThinEvent) (yields1 yields3 : List YieldRow)
    (yields2 : List RegenRow) : ℚ :=
  (resolveThinVolumes evt yields1 yields3 yields2).2.2.getD 0

/-- Claim C1: for every thinning event whose resolved pre-treatment volume is
positive, the removal percentage is
`round(100 * (removed softwood + removed hardwood) / (pre softwood + pre hardwood), 2)`
— where the code's removed-hardwood term `rem_h` is the constant `0.0`. -/
theorem thinning_removal_formula (evt : ThinEvent) (yields1 yields3 : List YieldRow)
    (yields2 : List RegenRow)
    (h : 0 < resolvedPreSoftwood evt yields1 yields3 yields2 +
           resolvedPreHardwood evt yields1 yields3 yields2) :
    (calcThinningPctEvent evt yields1 yields3 yields2).1 =
      round2 (100 * (resolvedRemovedSoftwood evt yields1 yields3 yields2 + rem_h) /
        (resolvedPreSoftwood evt yields1 yields3 yields2 +
         resolvedPreHardwood evt yields1 yields3 yields2)) := by
  unfold calcThinningPctEvent thinPctCore
  unfold resolvedPreSoftwood resolvedPreHardwood at h
  simp only [if_pos h]
  unfold resolvedRemovedSoftwood resolvedPreSoftwood resolvedPreHardwood
  congr 1
  ring

/-- Claim C8: when the resolved pre-treatment total volume is zero, the event
gets removal percentage exactly `0`, the zero-volume diagnostic fires, and the
division branch is not taken (no divide-by-zero, no abort). -/
theorem thinning_zero_volume_guard (evt : ThinEvent) (yields1 yields3 : List YieldRow)
    (yields2 : List RegenRow)
    (hthin : evt.dtype = "1st_Thin" ∨ evt.dtype = "2nd_Thin")
    (h : resolvedPreSoftwood evt yields1 yields3 yields2 +
           resolvedPreHardwood evt yields1 yields3 yields2 = 0) :
    calcThinningPctEvent evt yields1 yields3 yields2 = (0, true) := by
  unfold calcThinningPctEvent thinPctCore
  unfold resolvedPreSoftwood resolvedPreHardwood at h
  rw [if_neg]
  rw [h]
  exact lt_irrefl 0

/-- The spec's worked example: a 1st-rotation 1st thin at age 20, pre-treatment
volume 120 (all softwood), removed volume 40. -/
def exThinEvent : ThinEvent :=
  ⟨"S1", "1st_Thin", 20, 0, 0, 0, 1, none, "LB"⟩

def exYields1 : List YieldRow :=
  [⟨"S1", "T1-0-T2-0-F1-0-F2-0", "P_TOP4M3PA", List.replicate 19 (some 0) ++ [some 120]⟩,
   ⟨"S1", "T1-20-T2-0-F1-0-F2-0", "qP_TOP4M3PA", List.replicate 19 (some 0) ++ [some 40]⟩,
   ⟨"S1", "T1-0-T2-0-F1-0-F2-0", "H_TOP4M3PA", List.replicate 20 (some 0)⟩]

theorem thinning_removal_formula_witness :
    0 < resolvedPreSoftwood exThinEvent exYields1 [] [] +
          resolvedPreHardwood exThinEvent exYields1 [] [] ∧
    (calcThinningPctEvent exThinEvent exYields1 [] []).1 =
      round2 (100 * (resolvedRemovedSoftwood exThinEvent exYields1 [] [] + rem_h) /
        (resolvedPreSoftwood exThinEvent exYields1 [] [] +
         resolvedPreHardwood exThinEvent exYields1 [] [])) ∧
    (calcThinningPctEvent exThinEvent exYields1 [] []).1 = 3333 / 100 := by
  have hres : resolveThinVolumes exThinEvent exYields1 [] [] = (some 120, some 40, some 0) := by
    with_unfolding_all decide
  have hpos : 0 < resolvedPreSoftwood exThinEvent exYields1 [] [] +
      resolvedPreHardwood exThinEvent exYields1 [] [] := by
    rw [resolvedPreSoftwood, resolvedPreHardwood, hres]
    norm_num
  refine ⟨hpos, thinning_removal_formula exThinEvent exYields1 [] [] hpos, ?_⟩
  have hround : pyRound ((40 + rem_h) / (120 + 0) * 100 * 100) = 3333 := by
    with_unfolding_all decide
  rw [calcThinningPctEvent, hres]
  show (if 0 < (120 : ℚ) + 0 then
      (round2 ((40 + rem_h) / (120 + 0) * 100), false) else (0, true)).1 = 3333 / 100
  rw [if_pos (by norm_num : (0:ℚ) < 120 + 0)]
  show round2 ((40 + rem_h) / (120 + 0) * 100) = 3333 / 100
  rw [round2, hround]
  norm_num

/-- A 1st thin with no matching curve rows at all: every lookup misses, the
pre-treatment total is zero. -/
def exZeroEvent : ThinEvent :=
  ⟨"S9", "1st_Thin", 15, 0, 0, 0, 1, none, "LB"⟩

theorem thinning_zero_volume_guard_witness :
    (exZeroEvent.dtype = "1st_Thin" ∨ exZeroEvent.dtype = "2nd_Thin") ∧
    resolvedPreSoftwood exZeroEvent [] [] [] +
      resolvedPreHardwood exZeroEvent [] [] [] = 0 ∧
    calcThinningPctEvent exZeroEvent [] [] [] = (0, true) := by
  have hres : resolveThinVolumes exZeroEvent [] [] [] = (none, none, none) := by
    with_unfolding_all decide
  have hz : resolvedPreSoftwood exZeroEvent [] [] [] +
      resolvedPreHardwood exZeroEvent [] [] [] = 0 := by
    rw [resolvedPreSoftwood, resolvedPreHardwood, hres]
    norm_num
  exact ⟨Or.inl rfl, hz, thinning_zero_volume_guard exZeroEvent [] [] [] (Or.inl rfl) hz⟩

/-! ## Current-rotation curve resolution (`build_current_yield_curves`, `src/03_yield_curves.py`)

`_extract_volume_by_age` filters a yields table to one product and converts the
age columns to m³/ha (`NaN ↦ 0`, then `* M3_ACRE_TO_M3_HA`).  The function then
builds a dict keyed by `(stand_key, mgmt_trajectory)` from Yields1 rows and
overwrites entries with Yields3 rows (so for one key the last matching Yields3
row wins, else the last matching Yields1 row).  A missing key falls back to
`np.zeros(max_age)` — an all-zero volume array.
-/

def M3_ACRE_TO_M3_HA : ℚ := 247105 / 100000

/-- Age-column values of a row after `_extract_volume_by_age`'s
`fillna(0) * M3_ACRE_TO_M3_HA` conversion. -/
def volsConverted (r : YieldRow) : List ℚ :=
  r.vols.map (fun v => v.getD 0 * M3_ACRE_TO_M3_HA)

/-- Converted age array of the last row of `rows` carrying the given product and
`(stand_key, mgmt_trajectory)` key — the dict entry after row-by-row insertion. -/
def lastMatchVols (rows : List YieldRow) (product sk traj : String) : Option (List ℚ) :=
  ((rows.filter (fun r =>
      r.product == product && r.stand_key == sk && r.mgmt_trajectory == traj)).getLast?).map
    volsConverted

/-- `pine_lookup.get((sk, traj))`: Yields3 entry if present, else Yields1. -/
def pineLookup (yields1 yields3 : List YieldRow) (sk traj : String) : Option (List ℚ) :=
  match lastMatchVols yields3 "P_TOP4M3PA" sk traj with
  | some arr => some arr
  | none => lastMatchVols yields1 "P_TOP4M3PA" sk traj

/-- `pine_arr = pine_lookup.get((sk, traj), np.zeros(max_age))` — the resolved
softwood volume-by-age array for a `(stand, trajectory)` key, before the
post-thin qP adjustment. -/
def pineArr (yields1 yields3 : List YieldRow) (sk traj : String) : List ℚ :=
  (pineLookup yields1 yields3 sk traj).getD (List.replicate MAX_AGE_YIELDS1 0)

/-- A Yields1 table whose stand `S1` has a genuinely non-zero no-treatment
(`T1-0-T2-0-F1-0-F2-0`) softwood curve and no other trajectory variants. -/
def cexYields1 : List YieldRow :=
  [⟨"S1", "T1-0-T2-0-F1-0-F2-0", "P_TOP4M3PA", List.replicate 78 (some 1)⟩]

/-- Claim C6 counterexample: for the key `("S1", "T1-15-T2-0-F1-0-F2-0")`, which
has no entry in Yields3 nor in Yields1, the resolver does NOT fall back to the
stand's no-treatment trajectory curve: it produces the all-zero volume array,
which differs from `S1`'s (non-zero) no-treatment curve. -/
theorem current_yield_fallback_counterexample :
    lastMatchVols [] "P_TOP4M3PA" "S1" "T1-15-T2-0-F1-0-F2-0" = none ∧
    lastMatchVols cexYields1 "P_TOP4M3PA" "S1" "T1-15-T2-0-F1-0-F2-0" = none ∧
    pineArr cexYields1 [] "S1" "T1-15-T2-0-F1-0-F2-0" = List.replicate 78 0 ∧
    pineArr cexYields1 [] "S1" "T1-15-T2-0-F1-0-F2-0" ≠
      pineArr cexYields1 [] "S1" "T1-0-T2-0-F1-0-F2-0" := by
  have h1 : pineArr cexYields1 [] "S1" "T1-15-T2-0-F1-0-F2-0" = List.replicate 78 0 := by
    decide
  refine ⟨rfl, by decide, h1, ?_⟩
  rw [h1]
  intro h
  have h0 := congrArg (fun l => List.getD l 0 (0 : ℚ)) h
  have hval : (pineArr cexYields1 [] "S1" "T1-0-T2-0-F1-0-F2-0").getD 0 0 =
      1 * M3_ACRE_TO_M3_HA := rfl
  dsimp only at h0
  rw [hval] at h0
  have hrep : (List.replicate 78 (0 : ℚ)).getD 0 0 = 0 := rfl
  rw [hrep, M3_ACRE_TO_M3_HA] at h0
  norm_num at h0

/-- Claim C6 (amended): when a `(stand-key, trajectory-key)` pair has no entry
in the stand-specific source (Yields1) nor in the higher-priority
thinning-simulation source (Yields3), the resolver falls back to an all-zero
volume array (and `calc_thinning_pct`'s corresponding per-age lookups resolve
to volume `0`) — not to the stand's no-treatment trajectory curve. -/
theorem current_yield_missing_key_zero_fallback :
    (∀ (yields1 yields3 : List YieldRow) (sk traj : String),
       lastMatchVols yields3 "P_TOP4M3PA" sk traj = none →
       lastMatchVols yields1 "P_TOP4M3PA" sk traj = none →
       pineArr yields1 yields3 sk traj = List.replicate MAX_AGE_YIELDS1 0) ∧
    (∀ (evt : ThinEvent) (yields1 yields3 : List YieldRow) (yields2 : List RegenRow),
       (resolveThinVolumes evt yields1 yields3 yields2).1 = none →
       resolvedPreSoftwood evt yields1 yields3 yields2 = 0) := by
  constructor
  · intro yields1 yields3 sk traj h3 h1
    rw [pineArr, pineLookup, h3, h1]
    rfl
  · intro evt yields1 yields3 yields2 h
    rw [resolvedPreSoftwood, h]
    rfl

theorem current_yield_missing_key_zero_fallback_witness :
    lastMatchVols [] "P_TOP4M3PA" "S1" "T1-0-T2-0-F1-0-F2-0" = none ∧
    pineArr [] [] "S1" "T1-0-T2-0-F1-0-F2-0" = List.replicate MAX_AGE_YIELDS1 0 ∧
    (resolveThinVolumes exZeroEvent [] [] []).1 = none ∧
    resolvedPreSoftwood exZeroEvent [] [] [] = 0 :=
  ⟨rfl,
   current_yield_missing_key_zero_fallback.1 [] [] "S1" "T1-0-T2-0-F1-0-F2-0" rfl rfl,
   by with_unfolding_all decide,
   current_yield_missing_key_zero_fallback.2 exZeroEvent [] [] []
     (by with_unfolding_all decide)⟩

/-! ## Rotation tagging (`extract_disturbance_events`, `src/05_disturbances.py`)

Per stand, events are sorted by year; a `cc_seen` flag starts `false`; a
`Clearcut` event sets it; a `1st_Thin`/`2nd_Thin` event seen while the flag is
set gets `rotation = 2`; every event otherwise keeps the pre-set default
`rotation = 1`.  pandas `sort_values` is modelled by a stable insertion sort on
the year column.
-/

structure SchedEvent where
  dtype : String
  year : ℤ
  rotation : ℕ
deriving DecidableEq

def evDefault : SchedEvent := ⟨"", 0, 1⟩

def isThinType (e : SchedEvent) : Bool := e.dtype == "1st_Thin" || e.dtype == "2nd_Thin"

def isClearcut (e : SchedEvent) : Bool := e.dtype == "Clearcut"

def insertByYear (e : SchedEvent) : List SchedEvent → List SchedEvent
  | [] => [e]
  | x :: xs => if e.year ≤ x.year then e :: x :: xs else x :: insertByYear e xs

/-- `events.sort_values("year")` for one stand's events. -/
def sortByYear : List SchedEvent → List SchedEvent
  | [] => []
  | e :: xs => insertByYear e (sortByYear xs)

/-- The `cc_seen` loop of `extract_disturbance_events`, run over a stand's
year-sorted events: `rotation` defaults to 1, a thin seen after a clearcut is
retagged 2, a `Clearcut` sets the flag. -/
def tagRotationsAux : Bool → List SchedEvent → List SchedEvent
  | _, [] => []
  | seen, e :: rest =>
    if isClearcut e then { e with rotation := 1 } :: tagRotationsAux true rest
    else if isThinType e && seen then { e with rotation := 2 } :: tagRotationsAux seen rest
    else { e with rotation := 1 } :: tagRotationsAux seen rest

/-- Rotation tagging for one stand: sort by year, then run the flag loop. -/
def tagRotations (l : List SchedEvent) : List SchedEvent :=
  tagRotationsAux false (sortByYear l)

theorem tagRotationsAux_rotation (l : List SchedEvent) :
    ∀ (seen : Bool) (i : ℕ), i < l.length → isThinType (l.getD i evDefault) = true →
      ((tagRotationsAux seen l).getD i evDefault).rotation =
        if seen || (l.take i).any isClearcut then 2 else 1 := by
  induction l with
  | nil => intro seen i hi hthin; simp at hi
  | cons e rest ih =>
    intro seen i hi hthin
    cases i with
    | zero =>
      have hthin0 : isThinType e = true := by simpa using hthin
      have hnc : isClearcut e = false := by
        cases hcc : isClearcut e
        · rfl
        · exfalso
          have he : e.dtype = "Clearcut" := by simpa [isClearcut] using hcc
          rw [isThinType, he] at hthin0
          simpa using hthin0
      cases seen
      · simp [tagRotationsAux, hnc, hthin0]
      · simp [tagRotationsAux, hnc, hthin0]
    | succ j =>
      have hj : j < rest.length := by simpa using hi
      have hthin' : isThinType (rest.getD j evDefault) = true := by
        simpa using hthin
      cases hcc : isClearcut e
      · have hrec := ih seen j hj hthin'
        cases hts : isThinType e && seen
        · simp only [tagRotationsAux, hcc, hts, Bool.false_eq_true, if_false,
            List.getD_cons_succ, List.take_succ_cons, List.any_cons, Bool.false_or]
          exact hrec
        · simp only [tagRotationsAux, hcc, hts, Bool.false_eq_true, if_false, if_true,
            List.getD_cons_succ, List.take_succ_cons, List.any_cons, Bool.false_or]
          exact hrec
      · have hrec := ih true j hj hthin'
        simp only [tagRotationsAux, hcc, if_true, List.getD_cons_succ,
          List.take_succ_cons, List.any_cons, Bool.true_or] at hrec ⊢
        simp only [Bool.true_or, Bool.or_true] at hrec ⊢
        exact hrec

/-- Claim C3: after sorting a stand's disturbance events by year, a 1st/2nd
thinning event is tagged rotation 2 exactly when some strictly earlier event in
the sorted order is a clearcut (the `cc_seen` flag), and rotation 1 otherwise. -/
theorem rotation_tagging (l : List SchedEvent) (i : ℕ)
    (hi : i < (sortByYear l).length)
    (hthin : isThinType ((sortByYear l).getD i evDefault) = true) :
    ((tagRotations l).getD i evDefault).rotation =
      if ((sortByYear l).take i).any isClearcut then 2 else 1 := by
  have h := tagRotationsAux_rotation (sortByYear l) false i hi hthin
  simpa [tagRotations, Bool.false_or] using h

def exStandA : List SchedEvent := [⟨"Clearcut", 2030, 1⟩, ⟨"1st_Thin", 2045, 1⟩]

def exStandB : List SchedEvent := [⟨"1st_Thin", 2020, 1⟩, ⟨"Clearcut", 2035, 1⟩]

theorem rotation_tagging_witness :
    ((tagRotations exStandA).getD 1 evDefault).rotation = 2 ∧
    ((tagRotations exStandB).getD 0 evDefault).rotation = 1 := by
  constructor
  · have h := rotation_tagging exStandA 1 (by decide) (by decide)
    rw [h]
    decide
  · have h := rotation_tagging exStandB 0 (by decide) (by decide)
    rw [h]
    decide

/-! ## Partial (split-year) clearcut classification
(`classify_partial_clearcuts`, `src/05_disturbances.py`)

For a stand with more than one clearcut event (and a positive condition-file
area), its year-sorted clearcut events are clustered: a year gap `> 10` starts
a new cluster.  In a multi-event cluster containing at least one event whose
area is below 95% of the stand area, every event except the last is relabeled
`f"{round(area/stand_area*100, 2)}% clearcut"`; the last stays `Clearcut`.
The fractional label is modelled by the `CCLabel.fractional` constructor
carrying the rounded percentage that the Python string interpolates.
-/

inductive CCLabel where
  | clearcut : CCLabel
  | fractional : ℚ → CCLabel
deriving DecidableEq

structure CCEvent where
  year : ℤ
  area : ℚ
  label : CCLabel
deriving DecidableEq

/-- Relabel one event to `"XX.XX% clearcut"` with its area percentage. -/
def toFractional (standArea : ℚ) (e : CCEvent) : CCEvent :=
  { e with label := CCLabel.fractional (round2 (e.area / standArea * 100)) }

/-- The per-cluster body of `classify_partial_clearcuts`: single-event clusters
are untouched; a multi-event cluster is relabeled (all but the last event)
exactly when some event covers less than 95% of the stand area. -/
def relabelCluster (standArea : ℚ) (c : List CCEvent) : List CCEvent :=
  if c.length ≤ 1 then c
  else if c.any (fun e => decide (e.area / standArea < 95/100)) then
    (c.dropLast.map (toFractional standArea)) ++ c.drop (c.length - 1)
  else c

/-- Year-gap clustering of a stand's year-sorted clearcut events: consecutive
events stay in one cluster unless the gap exceeds 10 years. -/
def clusterCC : List CCEvent → List (List CCEvent)
  | [] => []
  | [e] => [[e]]
  | e1 :: e2 :: rest =>
    match clusterCC (e2 :: rest) with
    | [] => [[e1]]
    | c :: cs => if 10 < e2.year - e1.year then [e1] :: c :: cs else (e1 :: c) :: cs

/-- `classify_partial_clearcuts` for one multi-clearcut stand with positive
condition area: cluster, then relabel each cluster. -/
def classifySplitClearcuts (standArea : ℚ) (evts : List CCEvent) : List CCEvent :=
  ((clusterCC evts).map (relabelCluster standArea)).join

/-- First event year of a cluster (0 for an empty cluster). -/
def firstYear (c : List CCEvent) : ℤ := ((c.head?).map (fun e => e.year)).getD 0

/-- Last event year of a cluster (0 for an empty cluster). -/
def lastYear (c : List CCEvent) : ℤ := ((c.getLast?).map (fun e => e.year)).getD 0

theorem clusterCC_cons (e : CCEvent) (rest : List CCEvent) :
    ∃ c cs, clusterCC (e :: rest) = (e :: c) :: cs := by
  cases rest with
  | nil => exact ⟨[], [], rfl⟩
  | cons e2 r =>
    show ∃ c cs, (match clusterCC (e2 :: r) with
      | [] => [[e]]
      | c :: cs => if 10 < e2.year - e.year then [e] :: c :: cs
                   else (e :: c) :: cs) = (e :: c) :: cs
    rcases hcl : clusterCC (e2 :: r) with _ | ⟨c, cs⟩
    · exact ⟨[], [], rfl⟩
    · by_cases hgap : 10 < e2.year - e.year
      · exact ⟨[], c :: cs, by simp [hgap]⟩
      · exact ⟨c, cs, by simp [hgap]⟩

theorem clusterCC_join : ∀ l : List CCEvent, (clusterCC l).join = l := by
  intro l
  induction l with
  | nil => rfl
  | cons e rest ih =>
    cases rest with
    | nil => rfl
    | cons e2 r =>
      obtain ⟨c, cs, hcl⟩ := clusterCC_cons e2 r
      show (match clusterCC (e2 :: r) with
        | [] => [[e]]
        | c :: cs => if 10 < e2.year - e.year then [e] :: c :: cs
                     else (e :: c) :: cs).join = e :: e2 :: r
      rw [hcl]
      rw [hcl] at ih
      by_cases hgap : 10 < e2.year - e.year
      · simp only [if_pos hgap, List.join]
        simpa using ih
      · simp only [if_neg hgap, List.join] at ih ⊢
        simpa using ih

theorem clusterCC_within (l : List CCEvent) :
    ∀ c ∈ clusterCC l, List.Chain' (fun a b => b.year - a.year ≤ 10) c := by
  induction l with
  | nil => intro c hc; simp [clusterCC] at hc
  | cons e rest ih =>
    intro c hc
    cases rest with
    | nil =>
      simp only [clusterCC, List.mem_singleton] at hc
      subst hc
      simp
    | cons e2 r =>
      obtain ⟨c2, cs, hcl⟩ := clusterCC_cons e2 r
      rw [show clusterCC (e :: e2 :: r) = (match clusterCC (e2 :: r) with
        | [] => [[e]]
        | c :: cs => if 10 < e2.year - e.year then [e] :: c :: cs
                     else (e :: c) :: cs) from rfl, hcl] at hc
      replace hc : c ∈ (if 10 < e2.year - e.year then [e] :: (e2 :: c2) :: cs
        else (e :: e2 :: c2) :: cs) := hc
      by_cases hgap : 10 < e2.year - e.year
      · rw [if_pos hgap] at hc
        simp only [List.mem_cons] at hc
        rcases hc with hc | hc | hc
        · subst hc; simp
        · subst hc; exact ih _ (hcl ▸ List.mem_cons_self _ _)
        · exact ih _ (hcl ▸ List.mem_cons_of_mem _ hc)
      · rw [if_neg hgap] at hc
        simp only [List.mem_cons] at hc
        rcases hc with hc | hc
        · subst hc
          have hchain : List.Chain' (fun a b => b.year - a.year ≤ 10) (e2 :: c2) :=
            ih _ (hcl ▸ List.mem_cons_self _ _)
          exact List.Chain'.cons (by omega) hchain
        · exact ih _ (hcl ▸ List.mem_cons_of_mem _ hc)

theorem clusterCC_between (l : List CCEvent) :
    List.Chain' (fun c1 c2 => 10 < firstYear c2 - lastYear c1) (clusterCC l) := by
  induction l with
  | nil => simp [clusterCC]
  | cons e rest ih =>
    cases rest with
    | nil => simp [clusterCC]
    | cons e2 r =>
      obtain ⟨c2, cs, hcl⟩ := clusterCC_cons e2 r
      show List.Chain' _ (match clusterCC (e2 :: r) with
        | [] => [[e]]
        | c :: cs => if 10 < e2.year - e.year then [e] :: c :: cs
                     else (e :: c) :: cs)
      rw [hcl]
      rw [hcl] at ih
      show List.Chain' _ (if 10 < e2.year - e.year then [e] :: (e2 :: c2) :: cs
        else (e :: e2 :: c2) :: cs)
      by_cases hgap : 10 < e2.year - e.year
      · rw [if_pos hgap]
        refine List.Chain'.cons ?_ ih
        simp only [firstYear, lastYear, List.head?, List.getLast?_singleton,
          Option.map_some, Option.getD_some]
        simpa using hgap
      · rw [if_neg hgap]
        cases cs with
        | nil => simp
        | cons c3 cs3 =>
          have h1 : 10 < firstYear c3 - lastYear (e2 :: c2) :=
            (List.chain'_cons.mp ih).1
          have h2 : List.Chain' (fun c1 c2 => 10 < firstYear c2 - lastYear c1) (c3 :: cs3) :=
            (List.chain'_cons.mp ih).2
          refine List.chain'_cons.mpr ⟨?_, h2⟩
          have : lastYear (e :: e2 :: c2) = lastYear (e2 :: c2) := by
            simp [lastYear, List.getLast?]
          rw [this]
          exact h1

theorem clusterCC_ne_nil (l : List CCEvent) : ∀ c ∈ clusterCC l, c ≠ [] := by
  induction l with
  | nil => intro c hc; simp [clusterCC] at hc
  | cons e rest ih =>
    intro c hc
    cases rest with
    | nil =>
      simp only [clusterCC, List.mem_singleton] at hc
      subst hc
      simp
    | cons e2 r =>
      obtain ⟨c2, cs, hcl⟩ := clusterCC_cons e2 r
      rw [show clusterCC (e :: e2 :: r) = (match clusterCC (e2 :: r) with
        | [] => [[e]]
        | c :: cs => if 10 < e2.year - e.year then [e] :: c :: cs
                     else (e :: c) :: cs) from rfl, hcl] at hc
      replace hc : c ∈ (if 10 < e2.year - e.year then [e] :: (e2 :: c2) :: cs
        else (e :: e2 :: c2) :: cs) := hc
      by_cases hgap : 10 < e2.year - e.year
      · rw [if_pos hgap] at hc
        simp only [List.mem_cons] at hc
        rcases hc with hc | hc | hc
        · subst hc; simp
        · subst hc; simp
        · exact ih _ (hcl ▸ List.mem_cons_of_mem _ hc)
      · rw [if_neg hgap] at hc
        simp only [List.mem_cons] at hc
        rcases hc with hc | hc
        · subst hc; simp
        · exact ih _ (hcl ▸ List.mem_cons_of_mem _ hc)

/-- Claim C4: the clearcut events of a multi-clearcut stand are partitioned into
clusters split exactly at year gaps over 10 (the clusters concatenate back to
the event list, gaps within a cluster are `≤ 10`, gaps between consecutive
clusters are `> 10`); a multi-event cluster with at least one event below 95%
of the stand area has every event but the last relabeled to the fractional
type carrying `round(area/stand_area*100, 2)` while the last event is kept;
multi-event clusters with all events at `≥ 95%` and single-event clusters are
left unchanged; `classify_partial_clearcuts` is exactly the concatenation of
the relabeled clusters. -/
theorem split_clearcut_classification (evts : List CCEvent) (standArea : ℚ) :
    (clusterCC evts).join = evts ∧
    (∀ c ∈ clusterCC evts, c ≠ []) ∧
    (∀ c ∈ clusterCC evts, List.Chain' (fun a b => b.year - a.year ≤ 10) c) ∧
    List.Chain' (fun c1 c2 => 10 < firstYear c2 - lastYear c1) (clusterCC evts) ∧
    (∀ c : List CCEvent, 1 < c.length →
       (∃ e ∈ c, e.area / standArea < 95/100) →
       relabelCluster standArea c =
         (c.dropLast.map (toFractional standArea)) ++ c.drop (c.length - 1)) ∧
    (∀ c : List CCEvent, 1 < c.length →
       (∀ e ∈ c, ¬(e.area / standArea < 95/100)) → relabelCluster standArea c = c) ∧
    (∀ c : List CCEvent, c.length ≤ 1 → relabelCluster standArea c = c) ∧
    classifySplitClearcuts standArea evts =
      ((clusterCC evts).map (relabelCluster standArea)).join := by
  refine ⟨clusterCC_join evts, clusterCC_ne_nil evts, clusterCC_within evts,
    clusterCC_between evts, ?_, ?_, ?_, rfl⟩
  · intro c hlen hex
    have hany : c.any (fun e => decide (e.area / standArea < 95/100)) = true := by
      simp only [List.any_eq_true, decide_eq_true_eq]
      exact hex
    rw [relabelCluster, if_neg (by omega), if_pos hany]
  · intro c hlen hall
    have hany : c.any (fun e => decide (e.area / standArea < 95/100)) = false := by
      simp only [List.any_eq_false, decide_eq_true_eq]
      exact hall
    rw [relabelCluster, if_neg (by omega), hany]
    simp
  · intro c hlen
    rw [relabelCluster, if_pos hlen]

def exCC1 : CCEvent := ⟨2030, 40, CCLabel.clearcut⟩

def exCC2 : CCEvent := ⟨2031, 60, CCLabel.clearcut⟩

def exCC3 : CCEvent := ⟨2045, 100, CCLabel.clearcut⟩

theorem split_clearcut_classification_witness :
    clusterCC [exCC1, exCC2, exCC3] = [[exCC1, exCC2], [exCC3]] ∧
    relabelCluster 100 [exCC1, exCC2] =
      [{ exCC1 with label := CCLabel.fractional 40 }, exCC2] ∧
    classifySplitClearcuts 100 [exCC1, exCC2, exCC3] =
      [{ exCC1 with label := CCLabel.fractional 40 }, exCC2, exCC3] := by
  obtain ⟨-, -, -, -, hrel, -, hsingle, hjoin⟩ :=
    split_clearcut_classification [exCC1, exCC2, exCC3] 100
  have hr : round2 (40 / 100 * 100) = 40 := by
    have hp : pyRound (40 / 100 * 100 * 100) = 4000 := by with_unfolding_all decide
    rw [round2, hp]
    norm_num
  have hmem : exCC1 ∈ [exCC1, exCC2] := List.mem_cons_self _ _
  have hlt : exCC1.area / 100 < 95/100 := by norm_num [exCC1]
  have heq := hrel [exCC1, exCC2] (by norm_num) ⟨exCC1, hmem, hlt⟩
  have hcl : clusterCC [exCC1, exCC2, exCC3] = [[exCC1, exCC2], [exCC3]] := by decide
  have hrel2 : relabelCluster 100 [exCC1, exCC2] =
      [{ exCC1 with label := CCLabel.fractional 40 }, exCC2] := by
    rw [heq]
    show [toFractional 100 exCC1] ++ [exCC2] = _
    rw [show toFractional 100 exCC1 = { exCC1 with label := CCLabel.fractional 40 } from by
      rw [toFractional]
      show ({ exCC1 with label := CCLabel.fractional (round2 (40 / 100 * 100)) } : CCEvent) = _
      rw [hr]]
    rfl
  refine ⟨hcl, hrel2, ?_⟩
  rw [hjoin, hcl]
  simp only [List.map_cons, List.map_nil, hrel2, hsingle [exCC3] (by norm_num)]
  rfl

/-! ## Transition rules (`build_transition_rules`, `src/06_transitions.py`)

For each disturbance event, the stand's current classifier tuple is looked up
(first matching row; missing stands are skipped) and a rule
`(disturbance_type, source tuple, target tuple, reset_age)` is emitted:
a `Clearcut` moves growth-period to `post_regen`, maps species through
`_CLEARCUT_SPECIES_MAP`, resets the trajectory to the all-zero key and sets
`reset_age = 0`; a `1st_Thin`/`2nd_Thin` rewrites only the trajectory from the
event's `thin1`/`thin2`/`fert1`/`fert2` schedule columns with
`reset_age = -1`; `Site_Prep` changes nothing; any other type (including the
fractional clearcuts) produces no rule.  Finally the rule list is deduplicated
on `(disturbance_type, source tuple)`, keeping the first occurrence.
-/

structure Classifiers where
  species : String
  origin : String
  si_class : String
  growth_period : String
  mgmt_trajectory : String
deriving DecidableEq

structure TransEvent where
  stand_key : String
  dtype : String
  thin1 : ℕ
  thin2 : ℕ
  fert1 : ℕ
  fert2 : ℕ
  age : ℕ
deriving DecidableEq

structure TransitionRule where
  dtype : String
  src : Classifiers
  tgt : Classifiers
  reset_age : ℤ
deriving DecidableEq

/-- `_CLEARCUT_SPECIES_MAP` from `src/06_transitions.py`. -/
def CLEARCUT_SPECIES_MAP : List (String × String) :=
  [("LB", "LB"), ("LL", "LL"), ("SL", "SL"),
   ("COLB", "LB"), ("COLL", "LL"), ("COSL", "SL"),
   ("CSLB", "LB"), ("CSLL", "LL"), ("CSSL", "SL"),
   ("PH", "LB"), ("HH", "LB"), ("SH", "LB")]

/-- `_CLEARCUT_SPECIES_MAP.get(src_species, src_species)`. -/
def replantSpecies (s : String) : String := (CLEARCUT_SPECIES_MAP.lookup s).getD s

/-- The per-event rule construction of `build_transition_rules`. -/
def buildRule (evt : TransEvent) (src : Classifiers) : Option TransitionRule :=
  if evt.dtype = "Clearcut" then
    some ⟨"Clearcut", src,
      { src with
          growth_period := "post_regen",
          species := replantSpecies src.species,
          mgmt_trajectory := "T1-0-T2-0-F1-0-F2-0" }, 0⟩
  else if evt.dtype = "1st_Thin" then
    some ⟨"1st_Thin", src,
      { src with mgmt_trajectory := trajString evt.thin1 0 evt.fert1 evt.fert2 }, -1⟩
  else if evt.dtype = "2nd_Thin" then
    some ⟨"2nd_Thin", src,
      { src with mgmt_trajectory := trajString evt.thin1 evt.thin2 evt.fert1 evt.fert2 }, -1⟩
  else if evt.dtype = "Site_Prep" then
    some ⟨"Site_Prep", src, src, -1⟩
  else none

/-- `stands[stands.stand_key == sk].iloc[0]`: first matching stand row. -/
def lookupStand (stands : List (String × Classifiers)) (sk : String) : Option Classifiers :=
  (stands.find? (fun p => p.1 == sk)).map (fun p => p.2)

/-- The dedup key: `(disturbance_type, full source classifier tuple)`. -/
def ruleKey (r : TransitionRule) : String × Classifiers := (r.dtype, r.src)

/-- `drop_duplicates(subset=(disturbance_type, src classifiers))`, keeping the
first occurrence of each key. -/
def dedupRulesAux (seen : List (String × Classifiers)) : List TransitionRule → List TransitionRule
  | [] => []
  | r :: rest =>
    if ruleKey r ∈ seen then dedupRulesAux seen rest
    else r :: dedupRulesAux (ruleKey r :: seen) rest

def dedupRules (l : List TransitionRule) : List TransitionRule := dedupRulesAux [] l

/-- `build_transition_rules`: one rule attempt per event (skipping events whose
stand is missing and unrecognized disturbance types), then deduplication. -/
def buildTransitionRules (events : List TransEvent)
    (stands : List (String × Classifiers)) : List TransitionRule :=
  dedupRules (events.filterMap (fun e => (lookupStand stands e.stand_key).bind (buildRule e)))

theorem dedupRulesAux_sound (l : List TransitionRule) :
    ∀ seen, ∀ r' ∈ dedupRulesAux seen l, ruleKey r' ∉ seen ∧ r' ∈ l := by
  induction l with
  | nil => intro seen r' h; simp [dedupRulesAux] at h
  | cons r rest ih =>
    intro seen r' h
    rw [dedupRulesAux] at h
    by_cases hmem : ruleKey r ∈ seen
    · rw [if_pos hmem] at h
      obtain ⟨h1, h2⟩ := ih seen r' h
      exact ⟨h1, List.mem_cons_of_mem _ h2⟩
    · rw [if_neg hmem] at h
      rcases List.mem_cons.mp h with h | h
      · subst h; exact ⟨hmem, List.mem_cons_self _ _⟩
      · obtain ⟨h1, h2⟩ := ih (ruleKey r :: seen) r' h
        exact ⟨fun hc => h1 (List.mem_cons_of_mem _ hc), List.mem_cons_of_mem _ h2⟩

theorem dedupRulesAux_nodup (l : List TransitionRule) :
    ∀ seen, ((dedupRulesAux seen l).map ruleKey).Nodup := by
  induction l with
  | nil => intro seen; simp [dedupRulesAux]
  | cons r rest ih =>
    intro seen
    rw [dedupRulesAux]
    by_cases hmem : ruleKey r ∈ seen
    · rw [if_pos hmem]; exact ih seen
    · rw [if_neg hmem]
      simp only [List.map_cons, List.nodup_cons]
      constructor
      · intro hc
        obtain ⟨r', hr', hkey⟩ := List.mem_map.mp hc
        have := (dedupRulesAux_sound rest (ruleKey r :: seen) r' hr').1
        exact this (hkey ▸ List.mem_cons_self _ _)
      · exact ih (ruleKey r :: seen)

theorem dedupRulesAux_covers (l : List TransitionRule) :
    ∀ seen k, k ∈ l.map ruleKey → k ∉ seen →
      k ∈ (dedupRulesAux seen l).map ruleKey := by
  induction l with
  | nil => intro seen k h; simp at h
  | cons r rest ih =>
    intro seen k hk hns
    rw [dedupRulesAux]
    rcases List.mem_cons.mp hk with h | h
    · subst h
      rw [if_neg hns]
      simp
    · by_cases hmem : ruleKey r ∈ seen
      · rw [if_pos hmem]
        exact ih seen k h hns
      · rw [if_neg hmem]
        by_cases hkr : k = ruleKey r
        · subst hkr; simp
        · simp only [List.map_cons, List.mem_cons]
          right
          refine ih (ruleKey r :: seen) k h ?_
          intro hc
          rcases List.mem_cons.mp hc with hc | hc
          · exact hkr hc
          · exact hns hc

/-- Claim C7: for every clearcut event with a known stand, the rule's target
moves growth-period to `post_regen`, maps species through the replant mapping,
resets the trajectory to the all-zero key, keeps origin and si-class, and
carries an age reset to zero; and after deduplication the emitted rule set has
exactly one rule per distinct `(disturbance type, source tuple)` key: keys are
pairwise distinct and every key produced by some event is represented. -/
theorem clearcut_transition_and_dedup :
    (∀ (evt : TransEvent) (src : Classifiers), evt.dtype = "Clearcut" →
       ∃ r, buildRule evt src = some r ∧ r.dtype = "Clearcut" ∧ r.src = src ∧
         r.tgt.growth_period = "post_regen" ∧
         r.tgt.species = replantSpecies src.species ∧
         r.tgt.mgmt_trajectory = "T1-0-T2-0-F1-0-F2-0" ∧
         r.tgt.origin = src.origin ∧ r.tgt.si_class = src.si_class ∧
         r.reset_age = 0) ∧
    (∀ (events : List TransEvent) (stands : List (String × Classifiers)),
       ((buildTransitionRules events stands).map ruleKey).Nodup ∧
       ∀ r ∈ events.filterMap (fun e => (lookupStand stands e.stand_key).bind (buildRule e)),
         ruleKey r ∈ (buildTransitionRules events stands).map ruleKey) := by
  constructor
  · intro evt src h
    refine ⟨_, by rw [buildRule, if_pos h], rfl, rfl, rfl, rfl, rfl, rfl, rfl, rfl⟩
  · intro events stands
    constructor
    · exact dedupRulesAux_nodup _ []
    · intro r hr
      exact dedupRulesAux_covers _ [] (ruleKey r) (List.mem_map_of_mem ruleKey hr)
        (by simp)

def exCCEvt : TransEvent := ⟨"S1", "Clearcut", 0, 0, 0, 0, 25⟩

def exSrc : Classifiers := ⟨"COLB", "PY", "SI60", "current", "T1-12-T2-0-F1-0-F2-0"⟩

def exStands : List (String × Classifiers) := [("S1", exSrc)]

theorem clearcut_transition_and_dedup_witness :
    (∃ r, buildRule exCCEvt exSrc = some r ∧ r.dtype = "Clearcut" ∧ r.src = exSrc ∧
       r.tgt.growth_period = "post_regen" ∧
       r.tgt.species = replantSpecies exSrc.species ∧
       r.tgt.mgmt_trajectory = "T1-0-T2-0-F1-0-F2-0" ∧
       r.tgt.origin = exSrc.origin ∧ r.tgt.si_class = exSrc.si_class ∧
       r.reset_age = 0) ∧
    ((buildTransitionRules [exCCEvt, exCCEvt] exStands).map ruleKey).Nodup ∧
    replantSpecies "COLB" = "LB" :=
  ⟨clearcut_transition_and_dedup.1 exCCEvt exSrc rfl,
   (clearcut_transition_and_dedup.2 [exCCEvt, exCCEvt] exStands).1,
   by decide⟩

/-- Claim C5 (code bug): at a `1st_Thin` event the schedule columns hold the
pre-action state — `calc_thinning_pct`'s docstring states `thin1 = 0` at an
`aHTHIN1` row, the thin age just performed being the `AGE` column — yet
`build_transition_rules` builds the thin target trajectory from `evt["thin1"]`,
not from the event age.  So for a 1st thin at age 19 the emitted target
trajectory is `T1-0-T2-0-F1-0-F2-0`: identical to the source tuple's
trajectory, and NOT the `T1-19-...` key that `06_transitions.py`'s own header
(`T1-0-T2-0 -> T1-19-T2-0`) documents.  The thin age just performed is never
recorded.  (The frame part of the claim does hold: only the trajectory
component is touched and `reset_age = -1`.) -/
theorem thin_transition_misses_thin_age :
    ∃ r, buildRule ⟨"S1", "1st_Thin", 0, 0, 0, 0, 19⟩
        ⟨"LB", "PY", "SI60", "current", "T1-0-T2-0-F1-0-F2-0"⟩ = some r ∧
      r.tgt.mgmt_trajectory = "T1-0-T2-0-F1-0-F2-0" ∧
      r.tgt.mgmt_trajectory ≠ trajString 19 0 0 0 ∧
      r.tgt.species = "LB" ∧ r.tgt.origin = "PY" ∧ r.tgt.si_class = "SI60" ∧
      r.tgt.growth_period = "current" ∧ r.reset_age = -1 := by
  refine ⟨_, rfl, ?_, ?_, rfl, rfl, rfl, rfl, rfl⟩ <;> decide

/-! ## Disturbance matrix scaling (`create_scaled_disturbance`, `aidb_disturbance_manager.py`)

The template matrix is read as `(DMRow, DMColumn, Proportion)` triples.  Rows
with `Proportion <> 1` are split: the non-diagonal ones (`DMRow ≠ DMColumn`)
are scaled by `target_pct / base_pct` (the sink pool); for each `DMRow`
appearing among them a diagonal entry `1 − sum(scaled outgoing)` is recomputed
(the source pool); entries with `Proportion = 1` are copied through unscaled
(the stable pool).  The combined matrix is validated: the per-`DMRow` sums must
be `1 ± 0.001`, a violation printing a warning while the matrix is still
emitted.
-/

structure DMEntry where
  row : ℕ
  col : ℕ
  prop : ℚ
deriving DecidableEq

/-- Entries of a matrix at one source pool (`DMRow`). -/
def rowEntries (m : List DMEntry) (j : ℕ) : List DMEntry :=
  m.filter (fun x => x.row == j)

/-- `groupby("DMRow")["Proportion"].sum()` at one source pool. -/
def rowPropSum (m : List DMEntry) (j : ℕ) : ℚ :=
  ((rowEntries m j).map (fun x => x.prop)).sum

/-- `dfSinkPool`: the template's non-diagonal, non-1 proportions, scaled by
`endVal / startVal`. -/
def sinkPool (tmpl : List DMEntry) (scale : ℚ) : List DMEntry :=
  ((tmpl.filter (fun x => !(x.prop == 1))).filter (fun x => !(x.row == x.col))).map
    (fun x => { x with prop := scale * x.prop })

/-- `dfSourcePool`: one recomputed diagonal `1 − sum(outgoing)` per distinct
`DMRow` of the sink pool. -/
def sourcePool (sink : List DMEntry) : List DMEntry :=
  ((sink.map (fun x => x.row)).dedup).map (fun j => ⟨j, j, 1 - rowPropSum sink j⟩)

/-- `dfStablePool`: the template entries with `Proportion = 1`, unscaled. -/
def stablePool (tmpl : List DMEntry) : List DMEntry :=
  tmpl.filter (fun x => x.prop == 1)

/-- `dfDMValuesUpdate = concat([dfStablePool, dfSinkPool, dfSourcePool])` with
scale `endVal / startVal`. -/
def scaledMatrix (tmpl : List DMEntry) (startVal endVal : ℚ) : List DMEntry :=
  stablePool tmpl ++ sinkPool tmpl (endVal / startVal) ++
    sourcePool (sinkPool tmpl (endVal / startVal))

/-- The distinct source pools of a matrix. -/
def matrixRows (m : List DMEntry) : List ℕ := (m.map (fun x => x.row)).dedup

/-- The validation check: some pool's total proportion is off `1` by more than
`0.001`. -/
def rowSumWarning (m : List DMEntry) : Bool :=
  (matrixRows m).any (fun j => decide (|rowPropSum m j - 1| > 1/1000))

/-- `create_scaled_disturbance`: the scaled matrix plus whether the row-sum
warning was printed (the matrix is emitted either way). -/
def createScaledDisturbance (tmpl : List DMEntry) (startVal endVal : ℚ) :
    List DMEntry × Bool :=
  (scaledMatrix tmpl startVal endVal, rowSumWarning (scaledMatrix tmpl startVal endVal))

/-- Row-stochastic template shape at pool `j`: either no entry of the row has
proportion 1 (ordinary removal row — the diagonal, if present, is non-1 and
gets recomputed), or the row is a single entry (a fully stable pool). -/
def templateRowOK (tmpl : List DMEntry) (j : ℕ) : Prop :=
  ((rowEntries tmpl j).all (fun x => !(x.prop == 1)) = true) ∨
    (rowEntries tmpl j).length ≤ 1

instance (tmpl : List DMEntry) (j : ℕ) : Decidable (templateRowOK tmpl j) := by
  unfold templateRowOK
  infer_instance

theorem rowPropSum_append (a b : List DMEntry) (j : ℕ) :
    rowPropSum (a ++ b) j = rowPropSum a j + rowPropSum b j := by
  simp [rowPropSum, rowEntries, List.filter_append]

theorem mem_rowEntries {m : List DMEntry} {j : ℕ} {x : DMEntry} :
    x ∈ rowEntries m j ↔ x ∈ m ∧ x.row = j := by
  simp [rowEntries, List.mem_filter]

theorem rowEntries_eq_nil {m : List DMEntry} {j : ℕ}
    (h : ∀ x ∈ m, x.row ≠ j) : rowEntries m j = [] := by
  rw [rowEntries, List.filter_eq_nil_iff]
  intro x hx
  simpa using h x hx

theorem nodup_filter_beq (l : List ℕ) (hl : l.Nodup) (j : ℕ) :
    l.filter (fun i => i == j) = if j ∈ l then [j] else [] := by
  induction l with
  | nil => simp
  | cons a t ih =>
    rw [List.nodup_cons] at hl
    obtain ⟨ha, ht⟩ := hl
    by_cases haj : a = j
    · subst haj
      rw [List.filter_cons]
      simp only [beq_self_eq_true, if_pos, List.mem_cons, true_or, if_true]
      have : t.filter (fun i => i == a) = [] := by
        rw [ih ht, if_neg ha]
      rw [this]
    · rw [List.filter_cons]
      have hb : (a == j) = false := by simpa using haj
      simp only [hb, Bool.false_eq_true, if_false]
      rw [ih ht]
      by_cases hjt : j ∈ t
      · rw [if_pos hjt, if_pos (List.mem_cons_of_mem _ hjt)]
      · rw [if_neg hjt, if_neg (by
          intro hc
          rcases List.mem_cons.mp hc with hc | hc
          · exact haj hc.symm
          · exact hjt hc)]

theorem rowPropSum_sourcePool (sink : List DMEntry) (j : ℕ) :
    rowPropSum (sourcePool sink) j =
      if j ∈ (sink.map (fun x => x.row)).dedup then 1 - rowPropSum sink j else 0 := by
  have h1 : rowEntries (sourcePool sink) j =
      (((sink.map (fun x => x.row)).dedup.filter (fun i => i == j)).map
        (fun i => (⟨i, i, 1 - rowPropSum sink i⟩ : DMEntry))) := by
    rw [rowEntries, sourcePool]
    exact List.map_filter _ _
  rw [rowPropSum, h1, nodup_filter_beq _ (List.nodup_dedup _) j]
  by_cases hj : j ∈ (sink.map (fun x => x.row)).dedup
  · rw [if_pos hj, if_pos hj]
    simp
  · rw [if_neg hj, if_neg hj]
    simp

/-- Claim C2: for a template whose rows are well-formed (no pool mixes a
proportion-1 entry with other entries), every source pool of the scaled matrix
has total outgoing proportion (self-retention included) exactly 1 — hence
within the 0.001 tolerance — and the row-sum warning stays silent; moreover
`create_scaled_disturbance` raises its warning exactly when some pool's total
is off 1 by more than 0.001 while still emitting the matrix (reported, not
silently accepted, and not aborted). -/
theorem scaled_matrix_row_stochastic :
    (∀ (tmpl : List DMEntry) (startVal endVal : ℚ),
       (∀ j ∈ tmpl.map (fun x => x.row), templateRowOK tmpl j) →
       (∀ j ∈ matrixRows (scaledMatrix tmpl startVal endVal),
          rowPropSum (scaledMatrix tmpl startVal endVal) j = 1) ∧
       (createScaledDisturbance tmpl startVal endVal).2 = false) ∧
    (∀ (tmpl : List DMEntry) (startVal endVal : ℚ),
       (createScaledDisturbance tmpl startVal endVal).1 = scaledMatrix tmpl startVal endVal ∧
       ((createScaledDisturbance tmpl startVal endVal).2 = true ↔
         ∃ j ∈ matrixRows (scaledMatrix tmpl startVal endVal),
           |rowPropSum (scaledMatrix tmpl startVal endVal) j - 1| > 1/1000)) := by
  constructor
  · intro tmpl startVal endVal hok
    have hrow : ∀ j ∈ matrixRows (scaledMatrix tmpl startVal endVal),
        rowPropSum (scaledMatrix tmpl startVal endVal) j = 1 := by
      intro j hj
      have hjmem : ∃ y ∈ scaledMatrix tmpl startVal endVal, y.row = j := by
        obtain ⟨y, hy, hyr⟩ := List.mem_map.mp (List.mem_dedup.mp hj)
        exact ⟨y, hy, hyr⟩
      rw [show scaledMatrix tmpl startVal endVal =
        stablePool tmpl ++ sinkPool tmpl (endVal / startVal) ++
          sourcePool (sinkPool tmpl (endVal / startVal)) from rfl] at hjmem ⊢
      rw [rowPropSum_append, rowPropSum_append]
      by_cases hstab : ∃ x ∈ tmpl, x.row = j ∧ x.prop = 1
      · obtain ⟨x, hx, hxr, hxp⟩ := hstab
        have hxentries : x ∈ rowEntries tmpl j := mem_rowEntries.mpr ⟨hx, hxr⟩
        have hOK := hok j (List.mem_map.mpr ⟨x, hx, hxr⟩)
        rcases hOK with hall | hlen
        · exfalso
          have := List.all_eq_true.mp hall x hxentries
          rw [hxp] at this
          simp at this
        · have hre : rowEntries tmpl j = [x] := by
            cases hre' : rowEntries tmpl j with
            | nil => rw [hre'] at hxentries; simp at hxentries
            | cons a l =>
              cases l with
              | nil =>
                rw [hre'] at hxentries
                simp only [List.mem_singleton] at hxentries
                rw [hxentries]
              | cons b l2 => rw [hre'] at hlen; simp at hlen
          have hstbsum : rowPropSum (stablePool tmpl) j = 1 := by
            have hcomm : rowEntries (stablePool tmpl) j =
                (rowEntries tmpl j).filter (fun x => x.prop == 1) := by
              simp [rowEntries, stablePool, List.filter_filter, Bool.and_comm]
            rw [rowPropSum, hcomm, hre]
            simp [List.filter_cons, hxp]
          have hsinknil : rowEntries (sinkPool tmpl (endVal / startVal)) j = [] := by
            apply rowEntries_eq_nil
            intro y hy
            rw [sinkPool] at hy
            obtain ⟨z, hz, rfl⟩ := List.mem_map.mp hy
            have hz1 := List.mem_filter.mp hz
            have hz2 := List.mem_filter.mp hz1.1
            intro hrowj
            have hzre : z ∈ rowEntries tmpl j := mem_rowEntries.mpr ⟨hz2.1, hrowj⟩
            rw [hre] at hzre
            simp only [List.mem_singleton] at hzre
            subst hzre
            have := hz2.2
            rw [hxp] at this
            simp at this
          have hsinksum : rowPropSum (sinkPool tmpl (endVal / startVal)) j = 0 := by
            rw [rowPropSum, hsinknil]
            rfl
          have hnotin : j ∉ ((sinkPool tmpl (endVal / startVal)).map
              (fun x => x.row)).dedup := by
            rw [List.mem_dedup]
            intro hc
            obtain ⟨y, hy, hyr⟩ := List.mem_map.mp hc
            have : y ∈ rowEntries (sinkPool tmpl (endVal / startVal)) j :=
              mem_rowEntries.mpr ⟨hy, hyr⟩
            rw [hsinknil] at this
            simp at this
          rw [hstbsum, hsinksum, rowPropSum_sourcePool, if_neg hnotin]
          ring
      · have hstbnil : rowEntries (stablePool tmpl) j = [] := by
          apply rowEntries_eq_nil
          intro y hy
          have h1 := List.mem_filter.mp hy
          intro hr
          exact hstab ⟨y, h1.1, hr, by simpa using h1.2⟩
        have hstb0 : rowPropSum (stablePool tmpl) j = 0 := by
          rw [rowPropSum, hstbnil]
          rfl
        by_cases hjs : j ∈ ((sinkPool tmpl (endVal / startVal)).map
            (fun x => x.row)).dedup
        · rw [hstb0, rowPropSum_sourcePool, if_pos hjs]
          ring
        · exfalso
          obtain ⟨y, hy, hyr⟩ := hjmem
          rcases List.mem_append.mp hy with hy1 | hy2
          · rcases List.mem_append.mp hy1 with hy3 | hy4
            · have : y ∈ rowEntries (stablePool tmpl) j := mem_rowEntries.mpr ⟨hy3, hyr⟩
              rw [hstbnil] at this
              simp at this
            · exact hjs (List.mem_dedup.mpr (List.mem_map.mpr ⟨y, hy4, hyr⟩))
          · rw [sourcePool] at hy2
            obtain ⟨i, hi, rfl⟩ := List.mem_map.mp hy2
            have hij : i = j := hyr
            exact hjs (hij ▸ hi)
    refine ⟨hrow, ?_⟩
    show rowSumWarning (scaledMatrix tmpl startVal endVal) = false
    rw [rowSumWarning, List.any_eq_false]
    intro j hj
    rw [hrow j hj]
    norm_num
  · intro tmpl startVal endVal
    refine ⟨rfl, ?_⟩
    show rowSumWarning (scaledMatrix tmpl startVal endVal) = true ↔ _
    rw [rowSumWarning, List.any_eq_true]
    simp only [decide_eq_true_eq]

/-- A commercial-thinning-like template: pool 1 fully stable (proportion 1),
pool 2 sending half its content to pool 3 with diagonal retention 1/2;
scaled from a 50% baseline to a 30% target. -/
def exTemplate : List DMEntry := [⟨1, 1, 1⟩, ⟨2, 2, 1/2⟩, ⟨2, 3, 1/2⟩]

theorem scaled_matrix_row_stochastic_witness :
    (∀ j ∈ exTemplate.map (fun x => x.row), templateRowOK exTemplate j) ∧
    (∀ j ∈ matrixRows (scaledMatrix exTemplate (1/2) (3/10)),
       rowPropSum (scaledMatrix exTemplate (1/2) (3/10)) j = 1) ∧
    (createScaledDisturbance exTemplate (1/2) (3/10)).2 = false := by
  have hok : ∀ j ∈ exTemplate.map (fun x => x.row), templateRowOK exTemplate j := by
    with_unfolding_all decide
  obtain ⟨h1, h2⟩ := scaled_matrix_row_stochastic.1 exTemplate (1/2) (3/10) hok
  exact ⟨hok, h1, h2⟩
